import Mathlib

/-!
# A verification development for gitoxide's pack-index writing and pack-file opening

Shallow embedding of two source files:

* `git-odb/src/pack/index/write/mod.rs` — `write_data_iter_to_stream`, the
  streaming ingestion of decoded pack entries, its structural validation, and
  the surrounding resolution/encoding pipeline.  The iterator is embedded as a
  `List` of `Except`-wrapped decoded entries together with the lower bound of
  the iterator's `size_hint`, which the source consults explicitly.
* `gitoxide-odb/src/pack/file/mod.rs` — `File::try_from` (header validation of
  a pack file) and `File::decode_entry`.

Machine integers are embedded as `Nat` with explicit bounds checks where the
source checks them (`u32` conversion).  Sub-modules of the first file that are
not part of the sources (`types.rs`, `consume.rs`, `encode.rs`, and the
`git-features` parallelism helpers) are modelled from the specification; each
such definition carries a doc comment saying so.
-/

/-! ## Data model of `git-odb/src/pack/index/write` -/

/-- `git_object::Kind`: the kind of a base (non-delta) object. -/
inductive GitObjectKind where
  | Commit
  | Tree
  | Blob
  | Tag
deriving DecidableEq

/-- `pack::data::Header`: the parsed header of one pack entry.  `RefDelta`
carries the base's object id, `OfsDelta` the base's pack offset. -/
inductive Header where
  | Commit
  | Tree
  | Blob
  | Tag
  | RefDelta (base_id : List Nat)
  | OfsDelta (pack_offset : Nat)
deriving DecidableEq

/-- `Header::to_kind`: `Some` exactly for the four base headers. -/
def Header.to_kind : Header → Option GitObjectKind
  | .Commit => some .Commit
  | .Tree => some .Tree
  | .Blob => some .Blob
  | .Tag => some .Tag
  | _ => none

/-- `pack::data::iter::Error`: an opaque decode error produced by the input
iterator; only its identity matters here. -/
structure IterError where
  code : Nat
deriving DecidableEq

/-- `pack::data::iter::Entry`: one decoded pack entry as yielded by the input
iterator.  Byte strings are lists of byte values; `trailer` is the pack's
terminal hash, present only on the final entry. -/
structure IterEntry where
  header : Header
  pack_offset : Nat
  header_size : Nat
  compressed : List Nat
  decompressed : List Nat
  trailer : Option (List Nat)
deriving DecidableEq

/-- `ObjectKind` of an entry record (declared in `types.rs`; its two variants
and `is_base` are fixed by their uses in `mod.rs` and by spec section 3):
`Base(object_kind)` or `OffsetDelta(base_pack_offset)`. -/
inductive ObjectKind where
  | Base (kind : GitObjectKind)
  | OfsDelta (base_pack_offset : Nat)
deriving DecidableEq

/-- `ObjectKind::is_base`. -/
def ObjectKind.is_base : ObjectKind → Bool
  | .Base _ => true
  | .OfsDelta _ => false

/-- The entry record pushed to `index_entries` (`mod.rs` lines 93–98):
`entry_len = header_size + compressed.len()`, `crc32` initialised to `0`
("TBD" in the source). -/
structure Entry where
  pack_offset : Nat
  entry_len : Nat
  kind : ObjectKind
  crc32 : Nat
deriving DecidableEq

/-- Modelled from the spec: `CacheEntry` (`types.rs`, not under `src/`) holds
the cached compressed/decompressed bytes of one pack offset plus
`child_count`, "the number of not-yet-resolved direct dependents" (spec
section 3).  The byte payload produced by `Mode::base_cache` /
`Mode::delta_cache` is out of scope for the claims, so only the child count is
carried; a fresh entry has no dependents yet. -/
structure CacheEntry where
  child_count : Nat
deriving DecidableEq

/-- `CacheEntry::new`: a freshly inserted cache entry, no dependents yet. -/
def CacheEntry.new : CacheEntry := { child_count := 0 }

/-- `CacheEntry::increment_child_count`. -/
def CacheEntry.increment_child_count (c : CacheEntry) : CacheEntry :=
  { child_count := c.child_count + 1 }

/-- `pack::index::Kind`: the index format tag.  Modelled from the spec
(section 6): only the primary (default) variant is accepted. -/
inductive IndexKind where
  | V1
  | V2
deriving DecidableEq

/-- `pack::index::Kind::default()`. -/
def IndexKind.default : IndexKind := .V2

/-- `Error` of the index writer (`error.rs`; every variant name and payload
below appears at its construction site in `mod.rs`).  `PackDecode` is the
conversion of an iterator decode error applied by the `?` on `entry?`
(spec section 6 error taxonomy: `Decode(err)`). -/
inductive Error where
  | Unsupported (kind : IndexKind)
  | IteratorInvariantNonEmpty
  | IteratorInvariantIncreasingPackOffset (prev cur : Nat)
  | IteratorInvariantBasesBeforeDeltasNeedThem (delta_ofs base_ofs : Nat)
  | IteratorInvariantNoRefDelta
  | IteratorInvariantBasesPresent
  | IteratorInvariantTooManyObjects (n : Nat)
  | IteratorInvariantTrailer
  | PackDecode (e : IterError)
deriving DecidableEq

/-- `Outcome` of a successful build (`mod.rs` lines 145–150). -/
structure Outcome where
  index_kind : IndexKind
  index_hash : List Nat
  pack_hash : List Nat
  num_objects : Nat
deriving DecidableEq

/-! ### The cache map

`cache_by_offset` is a `BTreeMap<u64, CacheEntry>`.  It is embedded as an
association list with the map operations the source uses: `insert` (replace
if present, though offsets are distinct in every reachable state), `get_mut`
followed by `increment_child_count` (as `alIncrement`, `none` when the key is
absent), and lookup. -/

def alLookup (m : List (Nat × CacheEntry)) (k : Nat) : Option CacheEntry :=
  match m with
  | [] => none
  | (k0, v0) :: rest => if k0 = k then some v0 else alLookup rest k

def alInsert (m : List (Nat × CacheEntry)) (k : Nat) (v : CacheEntry) :
    List (Nat × CacheEntry) :=
  match m with
  | [] => [(k, v)]
  | (k0, v0) :: rest => if k0 = k then (k, v) :: rest else (k0, v0) :: alInsert rest k v

/-- `cache_by_offset.get_mut(&k).map(|e| e.increment_child_count())`:
`none` when `k` is absent, otherwise the map with `k`'s entry bumped. -/
def alIncrement (m : List (Nat × CacheEntry)) (k : Nat) :
    Option (List (Nat × CacheEntry)) :=
  match m with
  | [] => none
  | (k0, v0) :: rest =>
    if k0 = k then some ((k0, v0.increment_child_count) :: rest)
    else (alIncrement rest k).map ((k0, v0) :: ·)

/-! ### The ingestion loop (`mod.rs` lines 46–100) -/

/-- The mutable state of the `for (eid, entry) in entries.enumerate()` loop. -/
structure IngestState where
  num_objects : Nat
  bytes_to_process : Nat
  index_entries : List Entry
  last_seen_trailer : Option (List Nat)
  last_base_index : Option Nat
  last_pack_offset : Nat
  cache_by_offset : List (Nat × CacheEntry)
deriving DecidableEq

/-- The loop state before the first iteration (`mod.rs` lines 33–45). -/
def initState : IngestState where
  num_objects := 0
  bytes_to_process := 0
  index_entries := []
  last_seen_trailer := none
  last_base_index := none
  last_pack_offset := 0
  cache_by_offset := []

/-- One iteration of the ingestion loop for the enumerated item `(eid, item)`:
propagate a decode error (`entry?`), require a strictly increasing pack
offset, then dispatch on the header — a base records its kind and index, a
ref delta is rejected, an offset delta requires its base in the cache map and
bumps that base's child count — and finally install the cache entry, push the
`Entry` record (with `crc32 := 0`, "TBD" in the source) and remember the
trailer. -/
def ingestStep (eid : Nat) (st : IngestState) (item : Except IterError IterEntry) :
    Except Error IngestState :=
  match item with
  | .error ie => .error (.PackDecode ie)
  | .ok e =>
    if st.last_pack_offset < e.pack_offset then
      let push : ObjectKind → Option Nat → List (Nat × CacheEntry) → IngestState :=
        fun kind lbi cache =>
          { num_objects := st.num_objects + 1
            bytes_to_process := st.bytes_to_process + e.decompressed.length
            index_entries := st.index_entries ++
              [{ pack_offset := e.pack_offset
                 entry_len := e.header_size + e.compressed.length
                 kind := kind
                 crc32 := 0 }]
            last_seen_trailer := e.trailer
            last_base_index := lbi
            last_pack_offset := e.pack_offset
            cache_by_offset := alInsert cache e.pack_offset CacheEntry.new }
      match e.header with
      | .RefDelta _ => .error .IteratorInvariantNoRefDelta
      | .OfsDelta base_pack_offset =>
        match alIncrement st.cache_by_offset base_pack_offset with
        | none =>
          .error (.IteratorInvariantBasesBeforeDeltasNeedThem e.pack_offset base_pack_offset)
        | some cache2 =>
          .ok (push (.OfsDelta base_pack_offset) st.last_base_index cache2)
      | h =>
        .ok (push (.Base (h.to_kind.getD .Blob)) (some eid) st.cache_by_offset)
    else
      .error (.IteratorInvariantIncreasingPackOffset st.last_pack_offset e.pack_offset)

/-- The ingestion loop from enumeration index `eid` in state `st`. -/
def ingestFrom (eid : Nat) (st : IngestState) :
    List (Except IterError IterEntry) → Except Error IngestState
  | [] => .ok st
  | item :: rest =>
    match ingestStep eid st item with
    | .error err => .error err
    | .ok st2 => ingestFrom (eid + 1) st2 rest

/-- The whole ingestion loop over the iterator's items. -/
def ingestList (entries : List (Except IterError IterEntry)) : Except Error IngestState :=
  ingestFrom 0 initState entries

/-! ### The resolution and encoding pipeline (`mod.rs` lines 102–151)

The pieces below `mod.rs` that live in other files of the same crate or in
`git-features` (`consume::apply_deltas`, `types::Reducer`, `encode::to_write`,
`parallel::optimize_chunk_size_and_thread_limit`, `parallel::in_parallel_if`)
are not part of the sources and are modelled from the spec.  Out-of-scope
externals (object hashing, delta application, the encoder's byte format, the
chunking policy) enter as function parameters. -/

/-- A result tuple `(pack_offset, object_id, crc32)` (spec section 3). -/
def ResultTuple : Type := Nat × List Nat × Nat
deriving instance DecidableEq for ResultTuple

/-- The base work items handed to the parallel resolver: `mod.rs` line 113,
`index_entries.iter().take(last_base_index).filter(|e| e.kind.is_base())`. -/
def baseWorkItems (index_entries : List Entry) (last_base_index : Nat) : List Entry :=
  (index_entries.take last_base_index).filter (fun e => e.kind.is_base)

/-- The entries directly depending on pack offset `ofs`: those whose kind is
`OffsetDelta(ofs)`. -/
def dependentsOf (tbl : List Entry) (ofs : Nat) : List Entry :=
  tbl.filter (fun e => match e.kind with
    | .OfsDelta b => b = ofs
    | .Base _ => false)

/-- Modelled from the spec: `consume::apply_deltas` (`consume.rs`, not under
`src/`) resolves one base work item by emitting one result tuple per object
in the base's dependency subtree, walking direct dependents depth-first (spec
section 4.D).  Decompression, delta application and hashing are out-of-scope
externals; the object id of a materialized object is supplied by `oidOf`.
`fuel` bounds the walk; `tbl.length` suffices on every table the ingestion
loop produces, because a dependent's offset is strictly larger than its
base's. -/
def resolveTree (oidOf : Entry → List Nat) (tbl : List Entry) :
    Nat → Entry → List ResultTuple
  | 0, e => [(e.pack_offset, oidOf e, e.crc32)]
  | fuel + 1, e =>
    (e.pack_offset, oidOf e, e.crc32) ::
      (dependentsOf tbl e.pack_offset).flatMap (resolveTree oidOf tbl fuel)

/-- Modelled from the spec: one worker's job over a chunk of base work items
(`consume::apply_deltas`, spec section 4.D): each base's subtree in turn. -/
def apply_deltas (oidOf : Entry → List Nat) (chunk : List Entry)
    (tbl : List Entry) : List ResultTuple :=
  chunk.flatMap (fun base => resolveTree oidOf tbl tbl.length base)

/-- The input split into chunks of `size` items (`size = 0` behaves as `1`,
the policy never produces `0`), structured over a fuel bound so the split
computes by reduction; `fuel = l.length` always suffices, since every step
drops at least one item, and the fuel-exhausted arm keeps the remaining items
as one last chunk. -/
def chunksOfAux (size : Nat) : Nat → List Entry → List (List Entry)
  | _, [] => []
  | 0, l => [l]
  | fuel + 1, l => l.take (size.max 1) :: chunksOfAux size fuel (l.drop (size.max 1))

def chunksOf (size : Nat) (l : List Entry) : List (List Entry) :=
  chunksOfAux size l.length l

/-- Modelled from the spec: `parallel::in_parallel_if` (`git-features`, not
under `src/`) partitions the input into chunks and runs `consume` on each,
either in the calling thread or on `thread_limit` workers according to
`condition`; the reducer (`types::Reducer`, also not under `src/`)
accumulates each worker's output vector into one vector in feed order (spec
sections 4.D, 4.E).  The condition and the thread limit steer scheduling
only and do not enter the data path.  The spec additionally describes a
completeness check in the reducer (resolved count versus `num_objects`);
that check is deliberately not part of the model: combined with the
exclusive `take` at `mod.rs` line 113 it would reject every input, leaving
the trailer and outcome logic of `mod.rs` unreachable, whereas the model
keeps the stages after resolution reachable so they can be verified. -/
def in_parallel_if (_condition : Bool) (chunk_size : Nat) (_thread_limit : Nat)
    (input : List Entry) (consume : List Entry → List ResultTuple) :
    List ResultTuple :=
  ((chunksOf chunk_size input).map consume).flatten

/-- The resolver stage of `mod.rs` lines 110–129: base work items, chunked,
each chunk resolved by `apply_deltas`, outputs accumulated by the reducer. -/
def resolveStageItems (oidOf : Entry → List Nat) (index_entries : List Entry)
    (last_base_index : Nat) (chunk_size : Nat) (condition : Bool)
    (thread_limit : Nat) : List ResultTuple :=
  in_parallel_if condition chunk_size thread_limit
    (baseWorkItems index_entries last_base_index)
    (fun chunk => apply_deltas oidOf chunk index_entries)

/-- The byte-wise lexicographic order the sort key (an object id) is compared
by. -/
def oidLe : List Nat → List Nat → Bool
  | [], _ => true
  | _ :: _, [] => false
  | a :: as, b :: bs => if a < b then true else if b < a then false else oidLe as bs

/-- `items.sort_by_key(|e| e.1)` (`mod.rs` line 130): sort the result tuples
by object id (insertion sort; no claim depends on the order of tuples with
equal ids, and the sorted vector is dropped by the source after the crc
backfill). -/
def insertByOid (t : ResultTuple) : List ResultTuple → List ResultTuple
  | [] => [t]
  | u :: rest => if oidLe t.2.1 u.2.1 then t :: u :: rest else u :: insertByOid t rest

def sortByOid : List ResultTuple → List ResultTuple
  | [] => []
  | t :: rest => insertByOid t (sortByOid rest)

/-- The crc backfill of `mod.rs` lines 135–140: for each tuple, find the entry
record with the same pack offset and copy its `crc32` over.  The source
binary-searches the offset-sorted entry table and panics when the key is
missing; that cannot happen for tuples the resolver produced, and the model
keeps such a tuple unchanged. -/
def crcBackfill (tbl : List Entry) (items : List ResultTuple) : List ResultTuple :=
  items.map (fun t =>
    match tbl.find? (fun e => e.pack_offset = t.1) with
    | some e => (t.1, t.2.1, e.crc32)
    | none => t)

/-- `write_data_iter_to_stream` (`mod.rs` lines 19–151).

The iterator argument is embedded as the list of its items plus
`sizeHintLo`, the lower bound of its `size_hint()`: the source allocates
`Vec::with_capacity(entries.size_hint().0)` and returns
`IteratorInvariantNonEmpty` when that capacity is `0`, which for the non-zero
sized `Entry` element type happens exactly when the hint's lower bound is
`0`.  The out-of-src externals enter as parameters:

* `oidOf` — the content hash of a materialized object (spec: out of scope);
* `encodeToWrite` — `encode::to_write` (`encode.rs`, not under `src/`):
  modelled from the spec as a function of the entry table and the index kind
  producing the bytes written to `out` and the index hash it returns;
* `optimize` — `parallel::optimize_chunk_size_and_thread_limit`
  (`git-features`, not under `src/`): the policy knob producing
  `(chunk_size, thread_count, _)`, called as `optimize 1 none thread_limit
  none` exactly as at `mod.rs` line 103.

The result pairs the `Outcome` with the bytes written to `out`. -/
def write_data_iter_to_stream (oidOf : Entry → List Nat)
    (encodeToWrite : List Entry → IndexKind → List Nat × List Nat)
    (optimize : Nat → Option Nat → Option Nat → Option Nat → Nat × Nat × Nat)
    (kind : IndexKind) (sizeHintLo : Nat)
    (entries : List (Except IterError IterEntry)) (thread_limit : Option Nat) :
    Except Error (Outcome × List Nat) :=
  if kind ≠ IndexKind.default then .error (.Unsupported kind)
  else if sizeHintLo = 0 then .error .IteratorInvariantNonEmpty
  else
    match ingestList entries with
    | .error e => .error e
    | .ok st =>
      let ctl := optimize 1 none thread_limit none
      match st.last_base_index with
      | none => .error .IteratorInvariantBasesPresent
      | some last_base_index =>
        if st.num_objects < 2 ^ 32 then
          let items := resolveStageItems oidOf st.index_entries last_base_index
            ctl.1 (st.bytes_to_process > 5000000) ctl.2.1
          let _sorted := crcBackfill st.index_entries (sortByOid items)
          let encoded := encodeToWrite st.index_entries kind
          match st.last_seen_trailer with
          | none => .error .IteratorInvariantTrailer
          | some pack_hash =>
            .ok ({ index_kind := kind
                   index_hash := encoded.2
                   pack_hash := pack_hash
                   num_objects := st.num_objects }, encoded.1)
        else .error (.IteratorInvariantTooManyObjects st.num_objects)

/-! ### CRC32

Modelled from the spec: the source leaves the `crc32` field at `0` with a
"TBD" comment (`mod.rs` line 97); the spec (sections 3, 4.C, 8) requires it
to be the CRC32 checksum of the entry's on-pack bytes.  This is the standard
reflected CRC-32 (polynomial `0xEDB88320`, initial value and final xor
`0xFFFFFFFF`) that git and the Rust `crc32fast`/`flate2` crates compute. -/

def crc32Round : Nat → Nat → Nat
  | 0, c => c
  | n + 1, c => crc32Round n (if c % 2 = 1 then (c / 2) ^^^ 0xEDB88320 else c / 2)

def crc32Byte (c b : Nat) : Nat := crc32Round 8 (c ^^^ b % 256)

def crc32 (bytes : List Nat) : Nat :=
  (bytes.foldl crc32Byte 0xFFFFFFFF) ^^^ 0xFFFFFFFF

/-! ## Data model of `gitoxide-odb/src/pack/file/mod.rs`

`File::try_from` opens a pack file and validates its header; the model starts
from the opened file's bytes, so the `Io` error variant (failure to open the
path) is outside the model.  `File::decode_entry` decompresses one entry into
a caller-provided buffer. -/

/-- `Kind` of a pack file (version 2 or 3). -/
inductive OdbKind where
  | V2
  | V3
deriving DecidableEq

/-- `pack::decoded::Header` as `decode_entry` discriminates it. -/
inductive OdbHeader where
  | Commit
  | Tree
  | Blob
  | Tag
  | OfsDelta (pack_offset : Nat)
  | RefDelta (base_id : List Nat)
deriving DecidableEq

/-- `Entry` of `gitoxide-odb`: parsed header, decompressed size, and the
absolute offset of the compressed data in the pack. -/
structure OdbEntry where
  header : OdbHeader
  size : Nat
  offset : Nat
deriving DecidableEq

/-- The error enum of `gitoxide-odb/src/pack/file/mod.rs`, without `Io`
(opening the path is outside the byte-level model). -/
inductive OdbError where
  | Corrupt (msg : String)
  | UnsupportedVersion (version : Nat)
  | ZlibInflate (err : Nat) (msg : String)
deriving DecidableEq

/-- `File`: the mapped pack bytes, the parsed kind, and the object count. -/
structure OdbFile where
  data : List Nat
  kind : OdbKind
  num_objects : Nat
deriving DecidableEq

/-- `BigEndian::read_u32(&data[ofs..ofs + 4])`. -/
def readU32BE (data : List Nat) (ofs : Nat) : Nat :=
  data.getD ofs 0 * 2 ^ 24 + data.getD (ofs + 1) 0 * 2 ^ 16 +
    data.getD (ofs + 2) 0 * 2 ^ 8 + data.getD (ofs + 3) 0

/-- `N32_SIZE = size_of::<u32>()`. -/
def N32_SIZE : Nat := 4

/-- `git_object::SHA1_SIZE`. -/
def SHA1_SIZE : Nat := 20

/-- The bytes `b"PACK"`. -/
def PACK_MAGIC : List Nat := [0x50, 0x41, 0x43, 0x4B]

/-- `TryFrom<&Path> for File` (`mod.rs` lines 117–148), from the opened
file's bytes: reject a file shorter than `3 * 4 + 20 = 32` bytes as
`Corrupt`, reject a wrong magic as `Corrupt`, map version `2`/`3` (big-endian
`u32` at byte offset 4) to the kind and any other version to
`UnsupportedVersion`, and read `num_objects` as the big-endian `u32` at byte
offset 8. -/
def try_from (data : List Nat) : Except OdbError OdbFile :=
  if data.length < N32_SIZE * 3 + SHA1_SIZE then
    .error (.Corrupt ("Pack file of size " ++ toString data.length ++
      " is too small for even an empty pack"))
  else if data.take 4 ≠ PACK_MAGIC then
    .error (.Corrupt "Pack file type not recognized")
  else
    match readU32BE data N32_SIZE with
    | 2 => .ok { data := data, kind := .V2, num_objects := readU32BE data (N32_SIZE * 2) }
    | 3 => .ok { data := data, kind := .V3, num_objects := readU32BE data (N32_SIZE * 2) }
    | v => .error (.UnsupportedVersion v)

/-- How one call of `decode_entry` ends: a normal return, an `Err` (only
`ZlibInflate` is constructed), or a process abort — both `assert!` failures
and the `unimplemented!` arms of the delta headers are aborts, merged into
one outcome (their messages differ but no claim depends on them). -/
inductive DecodeOutcome where
  | ok
  | zlibErr (code : Nat)
  | panics
deriving DecidableEq

/-- `File::decode_entry` (`mod.rs` lines 90–114).  `inflate` stands for
`zlib::Inflate::once` on the byte slice starting at the entry's data offset
(zlib is an out-of-scope external), returning `Unit` on success or an error
code; `outLen` is the length of the caller's output buffer.  Checked in
source order: the buffer-size `assert!`, the offset-bound `assert!`, then the
header dispatch — the four base kinds inflate, both delta kinds hit
`unimplemented!`. -/
def decode_entry (inflate : List Nat → Except Nat Unit) (file : OdbFile)
    (entry : OdbEntry) (outLen : Nat) : DecodeOutcome :=
  if outLen < entry.size then .panics
  else if file.data.length < entry.offset then .panics
  else
    match entry.header with
    | .OfsDelta _ => .panics
    | .RefDelta _ => .panics
    | _ =>
      match inflate (file.data.drop entry.offset) with
      | .ok _ => .ok
      | .error e => .zlibErr e

/-- The four base kinds of `decode_entry`'s first match arm. -/
def OdbHeader.isBase : OdbHeader → Bool
  | .Commit => true
  | .Tree => true
  | .Blob => true
  | .Tag => true
  | .OfsDelta _ => false
  | .RefDelta _ => false

/-! ## Helper lemmas -/

theorem alLookup_alInsert (m : List (Nat × CacheEntry)) (k j : Nat) (v : CacheEntry) :
    alLookup (alInsert m k v) j = if k = j then some v else alLookup m j := by
  induction m with
  | nil => simp [alInsert, alLookup]
  | cons hd tl ih =>
    obtain ⟨k0, v0⟩ := hd
    by_cases h0 : k0 = k
    · subst h0
      by_cases hj : k0 = j <;> simp [alInsert, alLookup, hj]
    · by_cases hj : k0 = j
      · subst hj
        have hk : ¬ k = k0 := fun h => h0 h.symm
        simp [alInsert, alLookup, h0, hk]
      · simp [alInsert, alLookup, h0, hj, ih]

theorem alIncrement_none_iff (m : List (Nat × CacheEntry)) (k : Nat) :
    alIncrement m k = none ↔ alLookup m k = none := by
  induction m with
  | nil => simp [alIncrement, alLookup]
  | cons hd tl ih =>
    obtain ⟨k0, v0⟩ := hd
    by_cases h0 : k0 = k <;> simp [alIncrement, alLookup, h0, ih]

theorem alLookup_alIncrement (m m2 : List (Nat × CacheEntry)) (k j : Nat)
    (h : alIncrement m k = some m2) :
    alLookup m2 j =
      if k = j then (alLookup m j).map CacheEntry.increment_child_count
      else alLookup m j := by
  induction m generalizing m2 with
  | nil => simp [alIncrement] at h
  | cons hd tl ih =>
    obtain ⟨k0, v0⟩ := hd
    by_cases h0 : k0 = k
    · subst h0
      simp only [alIncrement, if_pos rfl] at h
      cases h
      by_cases hj : k0 = j
      · subst hj
        simp [alLookup]
      · simp [alLookup, hj]
    · simp only [alIncrement, if_neg h0] at h
      obtain ⟨t2, ht2, rfl⟩ := Option.map_eq_some'.mp h
      by_cases hj : k0 = j
      · subst hj
        have hkj : ¬ k = k0 := fun hc => h0 hc.symm
        simp [alLookup, hkj]
      · simp [alLookup, hj, ih t2 ht2]

theorem alIncrement_isSome_lookup (m m2 : List (Nat × CacheEntry)) (k : Nat)
    (h : alIncrement m k = some m2) : (alLookup m k).isSome := by
  rcases hl : alLookup m k with _ | c
  · rw [← alIncrement_none_iff] at hl
    rw [h] at hl
    cases hl
  · rfl

theorem chunksOfAux_flatMap (g : Entry → List ResultTuple) (size fuel : Nat)
    (l : List Entry) :
    ((chunksOfAux size fuel l).map (fun c => c.flatMap g)).flatten = l.flatMap g := by
  induction fuel generalizing l with
  | zero => cases l <;> simp [chunksOfAux]
  | succ fuel ih =>
    cases l with
    | nil => simp [chunksOfAux]
    | cons x xs =>
      have hstep : chunksOfAux size (fuel + 1) (x :: xs) =
          (x :: xs).take (size.max 1) ::
            chunksOfAux size fuel ((x :: xs).drop (size.max 1)) := rfl
      rw [hstep]
      simp only [List.map_cons, List.flatten_cons, ih]
      rw [← List.flatMap_append, List.take_append_drop]

theorem in_parallel_if_eq (condition : Bool) (chunk_size thread_limit : Nat)
    (input : List Entry) (g : Entry → List ResultTuple) :
    in_parallel_if condition chunk_size thread_limit input
      (fun chunk => chunk.flatMap g) = input.flatMap g := by
  unfold in_parallel_if chunksOf
  exact chunksOfAux_flatMap g chunk_size input.length input

theorem resolveStageItems_eq (oidOf : Entry → List Nat) (index_entries : List Entry)
    (last_base_index chunk_size : Nat) (condition : Bool) (thread_limit : Nat) :
    resolveStageItems oidOf index_entries last_base_index chunk_size condition
      thread_limit =
    (baseWorkItems index_entries last_base_index).flatMap
      (fun base => resolveTree oidOf index_entries index_entries.length base) := by
  unfold resolveStageItems apply_deltas
  exact in_parallel_if_eq _ _ _ _ _


theorem ingestFrom_cons (eid : Nat) (st : IngestState)
    (item : Except IterError IterEntry) (rest : List (Except IterError IterEntry)) :
    ingestFrom eid st (item :: rest) =
      match ingestStep eid st item with
      | .error err => .error err
      | .ok st2 => ingestFrom (eid + 1) st2 rest := rfl

theorem ingestFrom_append (eid : Nat) (st : IngestState)
    (l1 l2 : List (Except IterError IterEntry)) :
    ingestFrom eid st (l1 ++ l2) =
      match ingestFrom eid st l1 with
      | .ok st1 => ingestFrom (eid + l1.length) st1 l2
      | .error err => .error err := by
  induction l1 generalizing eid st with
  | nil => simp [ingestFrom]
  | cons item rest ih =>
    rw [List.cons_append]
    cases hstep : ingestStep eid st item with
    | error err => simp [ingestFrom_cons, hstep]
    | ok st2 =>
      simp only [ingestFrom_cons, hstep, ih]
      cases hres : ingestFrom (eid + 1) st2 rest with
      | error err => rfl
      | ok st1 =>
        have harith : eid + 1 + rest.length = eid + (item :: rest).length := by
          simp [List.length_cons]
          omega
        simp only [harith]

theorem ingestStep_ok_shape (eid : Nat) (st : IngestState)
    (item : Except IterError IterEntry) (st2 : IngestState)
    (h : ingestStep eid st item = .ok st2) :
    ∃ e, item = .ok e ∧ st.last_pack_offset < e.pack_offset ∧
      st2.last_pack_offset = e.pack_offset ∧ st2.last_seen_trailer = e.trailer := by
  cases item with
  | error ie => simp [ingestStep] at h
  | ok e =>
    refine ⟨e, rfl, ?_⟩
    by_cases hofs : st.last_pack_offset < e.pack_offset
    · refine ⟨hofs, ?_⟩
      simp only [ingestStep, if_pos hofs] at h
      rcases hh : e.header with _ | _ | _ | _ | b0 | b0 <;> rw [hh] at h
      · cases h; exact ⟨rfl, rfl⟩
      · cases h; exact ⟨rfl, rfl⟩
      · cases h; exact ⟨rfl, rfl⟩
      · cases h; exact ⟨rfl, rfl⟩
      · simp at h
      · dsimp only at h
        cases halI : alIncrement st.cache_by_offset b0 <;> rw [halI] at h
        · simp at h
        · dsimp only at h
          cases h
          exact ⟨rfl, rfl⟩
    · simp only [ingestStep, if_neg hofs] at h
      simp at h

theorem ingestStep_ne_nonEmpty (eid : Nat) (st : IngestState)
    (item : Except IterError IterEntry) :
    ingestStep eid st item ≠ .error .IteratorInvariantNonEmpty := by
  intro h
  cases item with
  | error ie => simp [ingestStep] at h
  | ok e =>
    by_cases hofs : st.last_pack_offset < e.pack_offset
    · simp only [ingestStep, if_pos hofs] at h
      rcases hh : e.header with _ | _ | _ | _ | b0 | b0 <;> rw [hh] at h <;>
        try simp at h
      cases halI : alIncrement st.cache_by_offset b0 <;> rw [halI] at h <;> simp at h
    · simp only [ingestStep, if_neg hofs] at h
      simp at h

theorem ingestFrom_ne_nonEmpty (eid : Nat) (st : IngestState)
    (l : List (Except IterError IterEntry)) :
    ingestFrom eid st l ≠ .error .IteratorInvariantNonEmpty := by
  induction l generalizing eid st with
  | nil => simp [ingestFrom]
  | cons item rest ih =>
    intro h
    cases hstep : ingestStep eid st item with
    | error err =>
      rw [ingestFrom_cons, hstep] at h
      cases h
      exact ingestStep_ne_nonEmpty eid st item hstep
    | ok st2 =>
      rw [ingestFrom_cons, hstep] at h
      exact ih (eid + 1) st2 h

theorem ingestFrom_ok_last (eid : Nat) (st st' : IngestState)
    (l : List (Except IterError IterEntry)) (h : ingestFrom eid st l = .ok st') :
    (l = [] ∧ st' = st) ∨
      ∃ e, l.getLast? = some (.ok e) ∧ st'.last_pack_offset = e.pack_offset ∧
        st'.last_seen_trailer = e.trailer := by
  induction l generalizing eid st with
  | nil =>
    rw [ingestFrom] at h
    cases h
    exact Or.inl ⟨rfl, rfl⟩
  | cons item rest ih =>
    right
    cases hstep : ingestStep eid st item with
    | error err => rw [ingestFrom_cons, hstep] at h; cases h
    | ok st2 =>
      rw [ingestFrom_cons, hstep] at h
      obtain ⟨e0, rfl, _, hlast2, htr2⟩ := ingestStep_ok_shape eid st _ st2 hstep
      rcases ih (eid + 1) st2 h with ⟨rfl, rfl⟩ | ⟨e, hlast, h1, h2⟩
      · exact ⟨e0, rfl, hlast2, htr2⟩
      · refine ⟨e, ?_, h1, h2⟩
        cases rest with
        | nil => cases hlast
        | cons y ys => rw [List.getLast?_cons_cons]; exact hlast

theorem ingestFrom_offsets_gt (eid : Nat) (st st' : IngestState)
    (l : List (Except IterError IterEntry)) (h : ingestFrom eid st l = .ok st') :
    ∀ x ∈ l, ∀ e, x = .ok e → st.last_pack_offset < e.pack_offset := by
  induction l generalizing eid st with
  | nil => intro x hx; cases hx
  | cons item rest ih =>
    cases hstep : ingestStep eid st item with
    | error err => rw [ingestFrom_cons, hstep] at h; cases h
    | ok st2 =>
      rw [ingestFrom_cons, hstep] at h
      obtain ⟨e0, rfl, hofs0, hlast2, _⟩ := ingestStep_ok_shape eid st _ st2 hstep
      intro x hx e hxe
      rcases List.mem_cons.mp hx with rfl | hmem
      · cases hxe
        exact hofs0
      · have := ih (eid + 1) st2 h x hmem e hxe
        omega

/-! ### The cache-map invariant

`cacheInvOn cache tbl lastOfs` ties the cache map to the entry table during
ingestion: every cached child count equals the number of direct `OffsetDelta`
dependents recorded so far, the cache's keys are exactly the recorded pack
offsets, every recorded offset is at most the last one seen, and every
recorded delta's base offset is a cache key. -/
def cacheInvOn (cache : List (Nat × CacheEntry)) (tbl : List Entry)
    (lastOfs : Nat) : Prop :=
  (∀ k ce, alLookup cache k = some ce →
      ce.child_count = (dependentsOf tbl k).length)
  ∧ (∀ k, (alLookup cache k).isSome ↔ k ∈ tbl.map (fun e => e.pack_offset))
  ∧ (∀ e ∈ tbl, e.pack_offset ≤ lastOfs)
  ∧ (∀ e ∈ tbl, ∀ b, e.kind = .OfsDelta b → (alLookup cache b).isSome)

def cacheInv (st : IngestState) : Prop :=
  cacheInvOn st.cache_by_offset st.index_entries st.last_pack_offset

theorem mem_dependentsOf (tbl : List Entry) (k : Nat) (e : Entry) :
    e ∈ dependentsOf tbl k ↔ e ∈ tbl ∧ e.kind = .OfsDelta k := by
  unfold dependentsOf
  rw [List.mem_filter]
  cases hk : e.kind <;> simp [hk]

theorem dependentsOf_append_single (tbl : List Entry) (x : Entry) (k : Nat) :
    (dependentsOf (tbl ++ [x]) k).length =
      (dependentsOf tbl k).length + (if x.kind = .OfsDelta k then 1 else 0) := by
  unfold dependentsOf
  rw [List.filter_append, List.length_append]
  congr 1
  cases hk : x.kind with
  | Base gk => simp [List.filter, hk]
  | OfsDelta b =>
    by_cases hb : b = k
    · subst hb
      simp [List.filter, hk]
    · simp [List.filter, hk, hb]

theorem lookupOn_none_of_gt (cache : List (Nat × CacheEntry)) (tbl : List Entry)
    (lastOfs : Nat) (hinv : cacheInvOn cache tbl lastOfs) (k : Nat)
    (hk : lastOfs < k) : alLookup cache k = none := by
  obtain ⟨_, inv2, inv3, _⟩ := hinv
  rcases hl : alLookup cache k with _ | c
  · rfl
  · have hsome : (alLookup cache k).isSome := by rw [hl]; rfl
    obtain ⟨e, he, hek⟩ := List.mem_map.mp ((inv2 k).mp hsome)
    have := inv3 e he
    omega

theorem dependentsOn_nil (cache : List (Nat × CacheEntry)) (tbl : List Entry)
    (lastOfs : Nat) (hinv : cacheInvOn cache tbl lastOfs) (k : Nat)
    (hnone : alLookup cache k = none) : dependentsOf tbl k = [] := by
  obtain ⟨_, _, _, inv4⟩ := hinv
  rcases hd : dependentsOf tbl k with _ | ⟨d, ds⟩
  · rfl
  · have hdmem : d ∈ dependentsOf tbl k := by
      rw [hd]
      exact List.mem_cons_self _ _
    obtain ⟨hmem, hkind⟩ := (mem_dependentsOf tbl k d).mp hdmem
    have := inv4 d hmem k hkind
    rw [hnone] at this
    simp at this

theorem cacheInvOn_push_base (cache : List (Nat × CacheEntry)) (tbl : List Entry)
    (lastOfs : Nat) (hinv : cacheInvOn cache tbl lastOfs) (ofs : Nat)
    (hofs : lastOfs < ofs) (gk : GitObjectKind) (elen crc : Nat) :
    cacheInvOn (alInsert cache ofs CacheEntry.new)
      (tbl ++ [{ pack_offset := ofs, entry_len := elen,
                 kind := ObjectKind.Base gk, crc32 := crc }]) ofs := by
  have hnone : alLookup cache ofs = none :=
    lookupOn_none_of_gt cache tbl lastOfs hinv ofs hofs
  have hdeps : dependentsOf tbl ofs = [] :=
    dependentsOn_nil cache tbl lastOfs hinv ofs hnone
  obtain ⟨inv1, inv2, inv3, inv4⟩ := hinv
  refine ⟨?_, ?_, ?_, ?_⟩
  · intro k ce hce
    rw [alLookup_alInsert] at hce
    rw [dependentsOf_append_single]
    by_cases hk : ofs = k
    · subst hk
      rw [if_pos rfl] at hce
      cases hce
      simp [CacheEntry.new, hdeps]
    · rw [if_neg hk] at hce
      simp [inv1 k ce hce]
  · intro k
    rw [alLookup_alInsert, List.map_append, List.mem_append]
    by_cases hk : ofs = k
    · subst hk
      simp
    · have hk2 : ¬ k = ofs := fun hh => hk hh.symm
      rw [if_neg hk]
      simp [inv2 k, hk2]
  · intro e he
    rcases List.mem_append.mp he with h1 | h2
    · have := inv3 e h1
      omega
    · simp at h2
      subst h2
      exact Nat.le_refl _
  · intro e he b hb
    rw [alLookup_alInsert]
    by_cases hk : ofs = b
    · rw [if_pos hk]
      rfl
    · rw [if_neg hk]
      rcases List.mem_append.mp he with h1 | h2
      · exact inv4 e h1 b hb
      · simp at h2
        subst h2
        simp at hb

theorem cacheInvOn_push_delta (cache cache2 : List (Nat × CacheEntry))
    (tbl : List Entry) (lastOfs : Nat) (hinv : cacheInvOn cache tbl lastOfs)
    (ofs b0 : Nat) (hofs : lastOfs < ofs)
    (halI : alIncrement cache b0 = some cache2) (elen crc : Nat) :
    cacheInvOn (alInsert cache2 ofs CacheEntry.new)
      (tbl ++ [{ pack_offset := ofs, entry_len := elen,
                 kind := ObjectKind.OfsDelta b0, crc32 := crc }]) ofs := by
  have hnone : alLookup cache ofs = none :=
    lookupOn_none_of_gt cache tbl lastOfs hinv ofs hofs
  have hdeps : dependentsOf tbl ofs = [] :=
    dependentsOn_nil cache tbl lastOfs hinv ofs hnone
  have hb0some : (alLookup cache b0).isSome :=
    alIncrement_isSome_lookup cache cache2 b0 halI
  have hb0ne : ¬ b0 = ofs := by
    intro hh
    rw [hh, hnone] at hb0some
    simp at hb0some
  have hlook2 : ∀ j, alLookup cache2 j =
      if b0 = j then (alLookup cache j).map CacheEntry.increment_child_count
      else alLookup cache j := fun j => alLookup_alIncrement cache cache2 b0 j halI
  obtain ⟨inv1, inv2, inv3, inv4⟩ := hinv
  refine ⟨?_, ?_, ?_, ?_⟩
  · intro k ce hce
    rw [alLookup_alInsert] at hce
    rw [dependentsOf_append_single]
    by_cases hk : ofs = k
    · subst hk
      rw [if_pos rfl] at hce
      cases hce
      simp [CacheEntry.new, hdeps, hb0ne]
    · rw [if_neg hk, hlook2 k] at hce
      by_cases hbk : b0 = k
      · subst hbk
        rw [if_pos rfl] at hce
        obtain ⟨c0, hc0, rfl⟩ := Option.map_eq_some'.mp hce
        simp [CacheEntry.increment_child_count, inv1 b0 c0 hc0]
      · rw [if_neg hbk] at hce
        simp [inv1 k ce hce, hbk]
  · intro k
    rw [alLookup_alInsert, List.map_append, List.mem_append]
    by_cases hk : ofs = k
    · subst hk
      simp
    · have hk2 : ¬ k = ofs := fun hh => hk hh.symm
      rw [if_neg hk, hlook2 k]
      by_cases hbk : b0 = k
      · subst hbk
        simp [Option.isSome_map', inv2 b0, hk2]
      · rw [if_neg hbk]
        simp [inv2 k, hk2]
  · intro e he
    rcases List.mem_append.mp he with h1 | h2
    · have := inv3 e h1
      omega
    · simp at h2
      subst h2
      exact Nat.le_refl _
  · intro e he b hb
    rw [alLookup_alInsert]
    by_cases hk : ofs = b
    · rw [if_pos hk]
      rfl
    · rw [if_neg hk, hlook2 b]
      by_cases hbk : b0 = b
      · subst hbk
        simp [Option.isSome_map']
        rcases List.mem_append.mp he with h1 | h2
        · exact inv4 e h1 b0 hb
        · exact hb0some
      · rw [if_neg hbk]
        rcases List.mem_append.mp he with h1 | h2
        · exact inv4 e h1 b hb
        · simp at h2
          subst h2
          simp at hb
          exact absurd hb hbk

theorem cacheInv_ingestStep (eid : Nat) (st : IngestState)
    (item : Except IterError IterEntry) (st2 : IngestState) (hinv : cacheInv st)
    (h : ingestStep eid st item = .ok st2) : cacheInv st2 := by
  cases item with
  | error ie => simp [ingestStep] at h
  | ok e =>
    by_cases hofs : st.last_pack_offset < e.pack_offset
    · simp only [ingestStep, if_pos hofs] at h
      rcases hh : e.header with _ | _ | _ | _ | bid | b0 <;> rw [hh] at h
      · cases h
        exact cacheInvOn_push_base _ _ _ hinv _ hofs _ _ _
      · cases h
        exact cacheInvOn_push_base _ _ _ hinv _ hofs _ _ _
      · cases h
        exact cacheInvOn_push_base _ _ _ hinv _ hofs _ _ _
      · cases h
        exact cacheInvOn_push_base _ _ _ hinv _ hofs _ _ _
      · simp at h
      · dsimp only at h
        cases halI : alIncrement st.cache_by_offset b0 <;> rw [halI] at h
        · simp at h
        · dsimp only at h
          cases h
          exact cacheInvOn_push_delta _ _ _ _ hinv _ _ hofs halI _ _
    · simp only [ingestStep, if_neg hofs] at h
      simp at h

theorem cacheInv_ingestFrom (eid : Nat) (st st' : IngestState)
    (l : List (Except IterError IterEntry)) (hinv : cacheInv st)
    (h : ingestFrom eid st l = .ok st') : cacheInv st' := by
  induction l generalizing eid st with
  | nil =>
    rw [ingestFrom] at h
    cases h
    exact hinv
  | cons item rest ih =>
    cases hstep : ingestStep eid st item with
    | error err => rw [ingestFrom_cons, hstep] at h; cases h
    | ok st2 =>
      rw [ingestFrom_cons, hstep] at h
      exact ih (eid + 1) st2 (cacheInv_ingestStep eid st item st2 hinv hstep) h

theorem cacheInv_initState : cacheInv initState := by
  refine ⟨?_, ?_, ?_, ?_⟩ <;> simp [initState, alLookup]

theorem cacheInv_ingestList (st : IngestState)
    (entries : List (Except IterError IterEntry))
    (h : ingestList entries = .ok st) : cacheInv st :=
  cacheInv_ingestFrom 0 initState st entries cacheInv_initState h

theorem writeData_ok_shape (oidOf : Entry → List Nat)
    (encodeToWrite : List Entry → IndexKind → List Nat × List Nat)
    (optimize : Nat → Option Nat → Option Nat → Option Nat → Nat × Nat × Nat)
    (kind : IndexKind) (sizeHintLo : Nat)
    (entries : List (Except IterError IterEntry)) (thread_limit : Option Nat)
    (res : Outcome × List Nat)
    (h : write_data_iter_to_stream oidOf encodeToWrite optimize kind sizeHintLo
      entries thread_limit = .ok res) :
    kind = IndexKind.default ∧ sizeHintLo ≠ 0 ∧
      ∃ st, ingestList entries = .ok st ∧
        st.last_seen_trailer = some res.1.pack_hash ∧
        res.1.num_objects = st.num_objects := by
  unfold write_data_iter_to_stream at h
  by_cases hk : kind ≠ IndexKind.default
  · rw [if_pos hk] at h
    cases h
  · rw [if_neg hk] at h
    by_cases hs : sizeHintLo = 0
    · rw [if_pos hs] at h
      cases h
    · rw [if_neg hs] at h
      refine ⟨not_not.mp hk, hs, ?_⟩
      cases hing : ingestList entries with
      | error e =>
        rw [hing] at h
        cases h
      | ok st =>
        rw [hing] at h
        dsimp only at h
        cases hlbi : st.last_base_index with
        | none =>
          rw [hlbi] at h
          cases h
        | some lbi =>
          rw [hlbi] at h
          dsimp only at h
          by_cases hnum : st.num_objects < 2 ^ 32
          · rw [if_pos hnum] at h
            cases htr : st.last_seen_trailer with
            | none =>
              rw [htr] at h
              cases h
            | some ph =>
              rw [htr] at h
              cases h
              exact ⟨st, rfl, htr, rfl⟩
          · rw [if_neg hnum] at h
            cases h

/-! ## Concrete inputs used by witnesses and counterexamples

Concrete out-of-src externals: `oid0` (an object-id function), `enc0` (an
encoder), `opt0` (a chunking policy), and small concrete entry streams. -/

def oid0 : Entry → List Nat := fun e => [e.pack_offset % 256]

def enc0 : List Entry → IndexKind → List Nat × List Nat := fun _ _ => ([], [])

def opt0 : Nat → Option Nat → Option Nat → Option Nat → Nat × Nat × Nat :=
  fun d _ tl _ => (d, tl.getD 1, 0)

/-- A blob base at pack offset 12 carrying a trailer (a one-entry stream). -/
def eBase12T : IterEntry :=
  { header := .Blob, pack_offset := 12, header_size := 1,
    compressed := [120, 1], decompressed := [104, 105],
    trailer := some (List.replicate 20 7) }

def itemBase12T : Except IterError IterEntry := .ok eBase12T

/-- The same blob without a trailer (a non-final entry). -/
def eBase12 : IterEntry :=
  { header := .Blob, pack_offset := 12, header_size := 1,
    compressed := [120, 1], decompressed := [104, 105], trailer := none }

def itemBase12 : Except IterError IterEntry := .ok eBase12

/-- A second blob base at pack offset 20, final entry with trailer. -/
def eBase20T : IterEntry :=
  { header := .Blob, pack_offset := 20, header_size := 1,
    compressed := [], decompressed := [], trailer := some (List.replicate 20 9) }

def itemBase20T : Except IterError IterEntry := .ok eBase20T

/-- An offset delta at pack offset 20 whose base is the entry at offset 12,
final entry with trailer. -/
def eDelta20b12T : IterEntry :=
  { header := .OfsDelta 12, pack_offset := 20, header_size := 1,
    compressed := [5], decompressed := [6],
    trailer := some (List.replicate 20 9) }

def itemDelta20b12T : Except IterError IterEntry := .ok eDelta20b12T

/-- A ref delta at pack offset 5 (rejected by ingestion). -/
def itemRefDelta5 : Except IterError IterEntry :=
  .ok { header := .RefDelta (List.replicate 20 1), pack_offset := 5,
        header_size := 1, compressed := [], decompressed := [], trailer := none }

/-- A blob at pack offset 3 (not above the previous offset 5). -/
def itemBase3 : Except IterError IterEntry :=
  .ok { header := .Blob, pack_offset := 3, header_size := 1,
        compressed := [], decompressed := [], trailer := none }

/-- A duplicate-offset blob at pack offset 12. -/
def eDup12 : IterEntry :=
  { header := .Blob, pack_offset := 12, header_size := 1,
    compressed := [], decompressed := [], trailer := none }

/-- An offset delta at pack offset 20 whose base offset 7 never appeared. -/
def eOfs20b7 : IterEntry :=
  { header := .OfsDelta 7, pack_offset := 20, header_size := 1,
    compressed := [], decompressed := [], trailer := none }

/-- An offset delta at pack offset 9 whose base offset 7 never appeared. -/
def eOfs9b7 : IterEntry :=
  { header := .OfsDelta 7, pack_offset := 9, header_size := 1,
    compressed := [], decompressed := [], trailer := none }

/-- A blob base at pack offset 0. -/
def eBase0 : IterEntry :=
  { header := .Blob, pack_offset := 0, header_size := 1,
    compressed := [], decompressed := [], trailer := some (List.replicate 20 7) }

def itemBase0 : Except IterError IterEntry := .ok eBase0

/-- The ingestion state after `[itemBase12T]`. -/
def stBase12T : IngestState :=
  { num_objects := 1, bytes_to_process := 2,
    index_entries := [{ pack_offset := 12, entry_len := 3,
                        kind := ObjectKind.Base GitObjectKind.Blob, crc32 := 0 }],
    last_seen_trailer := some (List.replicate 20 7),
    last_base_index := some 0, last_pack_offset := 12,
    cache_by_offset := [(12, { child_count := 0 })] }

/-- The ingestion state after `[itemBase12]` (no trailer). -/
def stBase12NoT : IngestState :=
  { num_objects := 1, bytes_to_process := 2,
    index_entries := [{ pack_offset := 12, entry_len := 3,
                        kind := ObjectKind.Base GitObjectKind.Blob, crc32 := 0 }],
    last_seen_trailer := none,
    last_base_index := some 0, last_pack_offset := 12,
    cache_by_offset := [(12, { child_count := 0 })] }

/-- The ingestion state after `[itemBase12, itemBase20T]`. -/
def stTwoBases : IngestState :=
  { num_objects := 2, bytes_to_process := 2,
    index_entries := [{ pack_offset := 12, entry_len := 3,
                        kind := ObjectKind.Base GitObjectKind.Blob, crc32 := 0 },
                      { pack_offset := 20, entry_len := 1,
                        kind := ObjectKind.Base GitObjectKind.Blob, crc32 := 0 }],
    last_seen_trailer := some (List.replicate 20 9),
    last_base_index := some 1, last_pack_offset := 20,
    cache_by_offset := [(12, { child_count := 0 }), (20, { child_count := 0 })] }

/-- The ingestion state after `[itemBase12, itemDelta20b12T]`. -/
def stBaseDelta : IngestState :=
  { num_objects := 2, bytes_to_process := 3,
    index_entries := [{ pack_offset := 12, entry_len := 3,
                        kind := ObjectKind.Base GitObjectKind.Blob, crc32 := 0 },
                      { pack_offset := 20, entry_len := 2,
                        kind := ObjectKind.OfsDelta 12, crc32 := 0 }],
    last_seen_trailer := some (List.replicate 20 9),
    last_base_index := some 0, last_pack_offset := 20,
    cache_by_offset := [(12, { child_count := 1 }), (20, { child_count := 0 })] }

/-! ## The claims -/

/-- C1: the claim says the base work items are exactly the `Base`-kind entries
at indices `0 ..= last_base_index` and that a one-base, zero-delta stream
yields a valid single-entry index.  The code (`mod.rs` line 113) uses
`take(last_base_index)`, an exclusive bound: for the one-base stream the
ingestion records the base at index `0` with `last_base_index = some 0`, yet
the work-item list is empty and the resolver stage emits no tuple, so the
only base is never resolved — while `take (last_base_index + 1)` would hand
over exactly the recorded base.  This evaluates the code at the failing
input of the code_bug record (spec section 9 flags this off-by-one). -/
theorem c1_take_omits_last_base :
    ingestList [itemBase12T] = .ok stBase12T ∧
    stBase12T.last_base_index = some 0 ∧
    stBase12T.index_entries.map (fun e => e.kind.is_base) = [true] ∧
    baseWorkItems stBase12T.index_entries 0 = [] ∧
    resolveStageItems oid0 stBase12T.index_entries 0 1 false 1 = [] ∧
    baseWorkItems stBase12T.index_entries (0 + 1) = stBase12T.index_entries :=
  ⟨rfl, rfl, rfl, rfl, rfl, rfl⟩

/-- C2: the claim says every result tuple's `crc32` is the CRC32 of the
entry's on-pack bytes.  The code never computes it: every `Entry` is pushed
with `crc32 = 0` (`mod.rs` line 97, "TBD"), and the backfill
(`mod.rs` lines 135–140) copies that `0` into the tuples.  On the two-base
stream the build succeeds and the resolved, sorted, backfilled tuple for the
base at offset 12 carries `crc32 = 0`, while the CRC32 of that entry's three
on-pack bytes (header byte `0x32` — type blob, size 2 — and compressed
payload `0x78 0x01`) is `1213148036 ≠ 0`. -/
theorem c2_crc32_left_zero :
    write_data_iter_to_stream oid0 enc0 opt0 IndexKind.default 2
        [itemBase12, itemBase20T] none =
      .ok ({ index_kind := IndexKind.default, index_hash := [],
             pack_hash := List.replicate 20 9, num_objects := 2 }, []) ∧
    ingestList [itemBase12, itemBase20T] = .ok stTwoBases ∧
    crcBackfill stTwoBases.index_entries
        (sortByOid (resolveStageItems oid0 stTwoBases.index_entries 1 1 false 1)) =
      [(12, [12], 0)] ∧
    stTwoBases.index_entries.map (fun e => e.crc32) = [0, 0] ∧
    crc32 [0x32, 0x78, 0x01] = 1213148036 ∧ (1213148036 : Nat) ≠ 0 :=
  ⟨rfl, rfl, rfl, rfl, rfl, by decide⟩

/-- C3, counterexample: a non-empty iterator whose `size_hint` lower bound is
`0` (which the `Iterator` contract allows for any iterator) is rejected with
`NonEmptyIterator`, so "a non-empty iterator is never rejected with this
error, regardless of the iterator's size_hint" is false on the code: the
check at `mod.rs` lines 36–39 consults only `entries.size_hint().0`. -/
theorem c3_nonempty_with_zero_hint_rejected :
    write_data_iter_to_stream oid0 enc0 opt0 IndexKind.default 0 [itemBase12T]
        none =
      .error .IteratorInvariantNonEmpty ∧
    ([itemBase12T] : List (Except IterError IterEntry)) ≠ [] :=
  ⟨rfl, by simp⟩

/-- C3, amended: `write_data_iter_to_stream` returns `NonEmptyIterator` if
and only if the index kind is the accepted default and the iterator's
`size_hint` lower bound is `0` — the check looks at the size hint, not at
whether the iterator actually yields entries. -/
theorem c3_nonempty_error_iff_hint_zero (oidOf : Entry → List Nat)
    (enc : List Entry → IndexKind → List Nat × List Nat)
    (opt : Nat → Option Nat → Option Nat → Option Nat → Nat × Nat × Nat)
    (kind : IndexKind) (sizeHintLo : Nat)
    (entries : List (Except IterError IterEntry)) (tl : Option Nat) :
    write_data_iter_to_stream oidOf enc opt kind sizeHintLo entries tl =
        .error .IteratorInvariantNonEmpty ↔
      kind = IndexKind.default ∧ sizeHintLo = 0 := by
  unfold write_data_iter_to_stream
  by_cases hk : kind ≠ IndexKind.default
  · rw [if_pos hk]
    simp [hk]
  · rw [if_neg hk]
    have hkd := not_not.mp hk
    by_cases hs : sizeHintLo = 0
    · rw [if_pos hs]
      simp [hkd, hs]
    · rw [if_neg hs]
      simp only [hs, and_false, iff_false]
      intro h
      cases hing : ingestList entries with
      | error e =>
        rw [hing] at h
        dsimp only at h
        cases h
        exact ingestFrom_ne_nonEmpty 0 initState entries hing
      | ok st =>
        rw [hing] at h
        dsimp only at h
        cases hlbi : st.last_base_index with
        | none =>
          rw [hlbi] at h
          simp at h
        | some lbi =>
          rw [hlbi] at h
          dsimp only at h
          by_cases hnum : st.num_objects < 2 ^ 32
          · rw [if_pos hnum] at h
            cases htr : st.last_seen_trailer with
            | none =>
              rw [htr] at h
              simp at h
            | some ph =>
              rw [htr] at h
              simp at h
          · rw [if_neg hnum] at h
            simp at h

/-- C4: for a fixed input (and fixed out-of-src externals: object hashing,
encoder, chunking policy), `write_data_iter_to_stream` returns the same
result — the same `Outcome` and byte-identical sink output — for any two
`thread_limit` values.  The thread limit enters only through the chunking of
the base work items and the worker count; reducing a chunked run equals the
unchunked run (`resolveStageItems_eq`), and neither the sink bytes nor the
`Outcome` fields depend on it. -/
theorem c4_thread_limit_invariant (oidOf : Entry → List Nat)
    (enc : List Entry → IndexKind → List Nat × List Nat)
    (opt : Nat → Option Nat → Option Nat → Option Nat → Nat × Nat × Nat)
    (kind : IndexKind) (sizeHintLo : Nat)
    (entries : List (Except IterError IterEntry)) (tl1 tl2 : Option Nat) :
    write_data_iter_to_stream oidOf enc opt kind sizeHintLo entries tl1 =
      write_data_iter_to_stream oidOf enc opt kind sizeHintLo entries tl2 := by
  unfold write_data_iter_to_stream
  simp only [resolveStageItems_eq]

/-- C5, counterexample: a stream that contains a monotonicity violation (the
second entry's offset 3 is not above the first's 5) but whose first entry is
a ref delta fails with `NoRefDelta`, not with `IncreasingPackOffset(5, 3)`:
the first error encountered wins, so the claim's unconditional "fails with
the IncreasingPackOffset error" is false as stated. -/
theorem c5_earlier_error_shadows :
    ingestList [itemRefDelta5, itemBase3] = .error Error.IteratorInvariantNoRefDelta ∧
    Error.IteratorInvariantNoRefDelta ≠
      Error.IteratorInvariantIncreasingPackOffset 5 3 :=
  ⟨rfl, by decide⟩

/-- C5, amended: when every entry before the violation is itself accepted
(the prefix ingests successfully), an entry whose pack offset is not
strictly above the previous one makes ingestion fail with
`IncreasingPackOffset(prev, cur)`, where `prev` is exactly the previous
entry's pack offset (`0` before the first entry) and `cur` the violating
entry's offset, in that order. -/
theorem c5_first_violation_errors (pre rest : List (Except IterError IterEntry))
    (e : IterEntry) (st : IngestState) (hpre : ingestList pre = .ok st)
    (hofs : e.pack_offset ≤ st.last_pack_offset) :
    ingestList (pre ++ .ok e :: rest) =
      .error (.IteratorInvariantIncreasingPackOffset st.last_pack_offset
        e.pack_offset) ∧
    (pre = [] → st.last_pack_offset = 0) ∧
    (∀ pe, pre.getLast? = some (.ok pe) → st.last_pack_offset = pe.pack_offset) := by
  refine ⟨?_, ?_, ?_⟩
  · unfold ingestList at hpre ⊢
    rw [ingestFrom_append, hpre]
    dsimp only
    rw [ingestFrom_cons]
    have hstep : ingestStep (0 + pre.length) st (.ok e) =
        .error (.IteratorInvariantIncreasingPackOffset st.last_pack_offset
          e.pack_offset) := by
      simp only [ingestStep]
      rw [if_neg (by omega)]
    rw [hstep]
  · intro h
    subst h
    unfold ingestList at hpre
    rw [ingestFrom] at hpre
    cases hpre
    rfl
  · intro pe hlast
    rcases ingestFrom_ok_last 0 initState st pre hpre with ⟨rfl, rfl⟩ | ⟨e2, hl2, hlp, _⟩
    · cases hlast
    · rw [hl2] at hlast
      have : e2 = pe := by
        injection hlast with h1
        injection h1
      subst this
      exact hlp

/-- C5, witness: appending a second blob at the same offset 12 to an accepted
one-base prefix fails with `IncreasingPackOffset(12, 12)`, and the prefix
state's `last_pack_offset` is the previous entry's offset 12. -/
theorem c5_witness :
    ingestList ([itemBase12T] ++ .ok eDup12 :: []) =
      .error (.IteratorInvariantIncreasingPackOffset stBase12T.last_pack_offset
        eDup12.pack_offset) ∧
    stBase12T.last_pack_offset = eBase12T.pack_offset := by
  have h := c5_first_violation_errors [itemBase12T] [] eDup12 stBase12T rfl
    (by decide)
  exact ⟨h.1, h.2.2 eBase12T rfl⟩

/-- C6, counterexample: a stream containing an `OffsetDelta` whose base
offset 7 never appeared as an earlier entry's pack offset (earlier offsets:
only 5), but whose first entry is a ref delta, fails with `NoRefDelta`, not
with `BaseBeforeDependent(9, 7)`: the first error encountered wins, so the
claim's unconditional "ingestion fails with the BaseBeforeDependent error"
is false as stated. -/
theorem c6_earlier_error_shadows :
    ingestList [itemRefDelta5, .ok eOfs9b7] =
      .error Error.IteratorInvariantNoRefDelta ∧
    Error.IteratorInvariantNoRefDelta ≠
      Error.IteratorInvariantBasesBeforeDeltasNeedThem 9 7 :=
  ⟨rfl, by decide⟩

/-- C6, amended: when the entries before the delta are themselves accepted
(the prefix ingests successfully) and the delta passes the offset check, an
`OffsetDelta` whose `base_pack_offset` is not the pack offset of any earlier
entry makes ingestion fail with `BaseBeforeDependent(delta_ofs, base_ofs)`;
and on every successful ingestion, each cache entry's `child_count` equals
the number of direct `OffsetDelta` dependents ingested for its offset. -/
theorem c6_base_before_dependent (pre rest : List (Except IterError IterEntry))
    (e : IterEntry) (b : Nat) (st : IngestState)
    (hpre : ingestList pre = .ok st) (hh : e.header = .OfsDelta b)
    (hofs : st.last_pack_offset < e.pack_offset)
    (hmem : b ∉ st.index_entries.map (fun en => en.pack_offset)) :
    ingestList (pre ++ .ok e :: rest) =
      .error (.IteratorInvariantBasesBeforeDeltasNeedThem e.pack_offset b) ∧
    (∀ entries2 st2, ingestList entries2 = .ok st2 → ∀ k ce,
      alLookup st2.cache_by_offset k = some ce →
      ce.child_count = (dependentsOf st2.index_entries k).length) := by
  constructor
  · have hinv := cacheInv_ingestList st pre hpre
    have hnone : alLookup st.cache_by_offset b = none := by
      rcases hl : alLookup st.cache_by_offset b with _ | c
      · rfl
      · have hsome : (alLookup st.cache_by_offset b).isSome := by rw [hl]; rfl
        exact absurd ((hinv.2.1 b).mp hsome) hmem
    have halI : alIncrement st.cache_by_offset b = none :=
      (alIncrement_none_iff _ _).mpr hnone
    unfold ingestList at hpre ⊢
    rw [ingestFrom_append, hpre]
    dsimp only
    rw [ingestFrom_cons]
    have hstep : ingestStep (0 + pre.length) st (.ok e) =
        .error (.IteratorInvariantBasesBeforeDeltasNeedThem e.pack_offset b) := by
      simp only [ingestStep]
      rw [if_pos hofs, hh]
      dsimp only
      rw [halI]
    rw [hstep]
  · intro entries2 st2 h2 k ce hce
    exact (cacheInv_ingestList st2 entries2 h2).1 k ce hce

/-- C6, witness: after the accepted one-base prefix at offset 12, an offset
delta at 20 whose base offset 7 never appeared fails with
`BaseBeforeDependent(20, 7)`; and on the accepted base-plus-delta stream the
base's cache entry carries `child_count = 1`, the number of its direct
dependents. -/
theorem c6_witness :
    ingestList ([itemBase12T] ++ .ok eOfs20b7 :: []) =
      .error (.IteratorInvariantBasesBeforeDeltasNeedThem eOfs20b7.pack_offset 7) ∧
    ({ child_count := 1 } : CacheEntry).child_count =
      (dependentsOf stBaseDelta.index_entries 12).length := by
  have h := c6_base_before_dependent [itemBase12T] [] eOfs20b7 7 stBase12T rfl rfl
    (by decide) (by decide)
  exact ⟨h.1, h.2 [itemBase12, itemDelta20b12T] stBaseDelta rfl 12
    { child_count := 1 } rfl⟩

/-- C7: with the accepted index kind, a non-zero size hint, and a stream that
ingests successfully with at least one base and an in-range object count,
a missing trailer on the final entry makes `write_data_iter_to_stream` fail
with `MissingTrailer`; and on every success the returned `pack_hash` is
exactly the trailer carried by the stream's final entry. -/
theorem c7_trailer (oidOf : Entry → List Nat)
    (enc : List Entry → IndexKind → List Nat × List Nat)
    (opt : Nat → Option Nat → Option Nat → Option Nat → Nat × Nat × Nat)
    (sizeHintLo : Nat) (entries : List (Except IterError IterEntry))
    (tl : Option Nat) (st : IngestState) (hshl : sizeHintLo ≠ 0)
    (hing : ingestList entries = .ok st) (htr : st.last_seen_trailer = none)
    (hbase : st.last_base_index ≠ none) (hnum : st.num_objects < 2 ^ 32) :
    write_data_iter_to_stream oidOf enc opt IndexKind.default sizeHintLo entries
        tl =
      .error .IteratorInvariantTrailer ∧
    (∀ (kind2 : IndexKind) (shl2 : Nat)
        (entries2 : List (Except IterError IterEntry)) (tl2 : Option Nat)
        (res : Outcome × List Nat),
      write_data_iter_to_stream oidOf enc opt kind2 shl2 entries2 tl2 = .ok res →
      ∃ e, entries2.getLast? = some (.ok e) ∧
        e.trailer = some res.1.pack_hash) := by
  constructor
  · unfold write_data_iter_to_stream
    rw [if_neg (by simp), if_neg hshl, hing]
    dsimp only
    cases hlbi : st.last_base_index with
    | none => exact absurd hlbi hbase
    | some lbi =>
      dsimp only
      rw [if_pos hnum, htr]
  · intro kind2 shl2 entries2 tl2 res hok
    obtain ⟨_, _, st2, hing2, htr2, _⟩ :=
      writeData_ok_shape oidOf enc opt kind2 shl2 entries2 tl2 res hok
    rcases ingestFrom_ok_last 0 initState st2 entries2 hing2 with ⟨rfl, rfl⟩ |
      ⟨e, hl, _, htre⟩
    · simp [initState] at htr2
    · refine ⟨e, hl, ?_⟩
      rw [← htre]
      exact htr2

/-- C7, witness: the one-base stream without a trailer fails with
`MissingTrailer`, and on the accepted one-base stream with trailer the
returned `pack_hash` is that trailer. -/
theorem c7_witness :
    write_data_iter_to_stream oid0 enc0 opt0 IndexKind.default 1 [itemBase12]
        none =
      .error .IteratorInvariantTrailer ∧
    (∃ e, ([itemBase12T] : List (Except IterError IterEntry)).getLast? =
        some (.ok e) ∧
      e.trailer = some (List.replicate 20 7)) := by
  have h := c7_trailer oid0 enc0 opt0 1 [itemBase12] none stBase12NoT
    (by decide) rfl rfl (by decide) (by decide)
  refine ⟨h.1, ?_⟩
  exact h.2 IndexKind.default 1 [itemBase12T] none
    ({ index_kind := IndexKind.default, index_hash := [],
       pack_hash := List.replicate 20 7, num_objects := 1 }, []) rfl

/-- C8, counterexample: a stream whose first entry is at pack offset 0 is
*not* always rejected with `IncreasingPackOffset(0, 0)`: when the iterator's
`size_hint` lower bound is 0 the emptiness check fires first and the stream
is rejected with `NonEmptyIterator` instead. -/
theorem c8_hint_zero_shadows :
    write_data_iter_to_stream oid0 enc0 opt0 IndexKind.default 0 [itemBase0]
        none =
      .error .IteratorInvariantNonEmpty ∧
    Error.IteratorInvariantNonEmpty ≠
      Error.IteratorInvariantIncreasingPackOffset 0 0 :=
  ⟨rfl, by decide⟩

/-- C8, amended: with the accepted index kind and a non-zero size hint, a
stream whose first entry has pack offset 0 is rejected with
`IncreasingPackOffset(0, 0)` — the previous-offset tracker starts at 0 and
the check demands strict increase — and no accepted stream contains an entry
at pack offset 0. -/
theorem c8_zero_offset_rejected (oidOf : Entry → List Nat)
    (enc : List Entry → IndexKind → List Nat × List Nat)
    (opt : Nat → Option Nat → Option Nat → Option Nat → Nat × Nat × Nat)
    (sizeHintLo : Nat) (entries : List (Except IterError IterEntry))
    (tl : Option Nat) (e : IterEntry) (hshl : sizeHintLo ≠ 0)
    (hhead : entries.head? = some (.ok e)) (h0 : e.pack_offset = 0) :
    write_data_iter_to_stream oidOf enc opt IndexKind.default sizeHintLo entries
        tl =
      .error (.IteratorInvariantIncreasingPackOffset 0 0) ∧
    (∀ (kind2 : IndexKind) (shl2 : Nat)
        (entries2 : List (Except IterError IterEntry)) (tl2 : Option Nat)
        (res : Outcome × List Nat),
      write_data_iter_to_stream oidOf enc opt kind2 shl2 entries2 tl2 = .ok res →
      ∀ x ∈ entries2, ∀ e2, x = .ok e2 → 0 < e2.pack_offset) := by
  constructor
  · cases entries with
    | nil => simp [List.head?] at hhead
    | cons x rest =>
      have hx : x = .ok e := by
        simpa [List.head?] using hhead
      subst hx
      have hstep : ingestStep 0 initState (.ok e) =
          .error (.IteratorInvariantIncreasingPackOffset 0 0) := by
        simp only [ingestStep]
        rw [if_neg (by simp [initState, h0])]
        simp [initState, h0]
      have hlist : ingestList (.ok e :: rest) =
          .error (.IteratorInvariantIncreasingPackOffset 0 0) := by
        unfold ingestList
        rw [ingestFrom_cons, hstep]
      unfold write_data_iter_to_stream
      rw [if_neg (by simp), if_neg hshl, hlist]
  · intro kind2 shl2 entries2 tl2 res hok x hx e2 hxe
    obtain ⟨_, _, st2, hing2, _, _⟩ :=
      writeData_ok_shape oidOf enc opt kind2 shl2 entries2 tl2 res hok
    have := ingestFrom_offsets_gt 0 initState st2 entries2 hing2 x hx e2 hxe
    simpa [initState] using this

/-- C8, witness: the one-entry stream at pack offset 0 (with size hint 1) is
rejected with `IncreasingPackOffset(0, 0)`, and on the accepted two-base
stream every entry's pack offset is positive (here the first one, 12). -/
theorem c8_witness :
    write_data_iter_to_stream oid0 enc0 opt0 IndexKind.default 1 [itemBase0]
        none =
      .error (.IteratorInvariantIncreasingPackOffset 0 0) ∧
    0 < eBase12.pack_offset := by
  have h := c8_zero_offset_rejected oid0 enc0 opt0 1 [itemBase0] none eBase0
    (by decide) rfl rfl
  refine ⟨h.1, ?_⟩
  exact h.2 IndexKind.default 2 [itemBase12, itemBase20T] none
    ({ index_kind := IndexKind.default, index_hash := [],
       pack_hash := List.replicate 20 9, num_objects := 2 }, []) rfl
    itemBase12 (by simp [itemBase12]) eBase12 rfl

/-- C9: `File::try_from` on a pack file's bytes succeeds if and only if the
file is at least 32 bytes long, begins with `"PACK"`, and carries a
big-endian `u32` version of 2 or 3 at byte offset 4; a too-small file and a
wrong magic yield `Corrupt`, any other version yields
`UnsupportedVersion(v)`, and on success `num_objects` is the big-endian
`u32` at byte offset 8.  (`File::at` only forwards to `try_from`.) -/
theorem c9_try_from_characterization (data : List Nat) :
    ((∃ f, try_from data = .ok f) ↔
      (32 ≤ data.length ∧ data.take 4 = PACK_MAGIC ∧
        (readU32BE data 4 = 2 ∨ readU32BE data 4 = 3))) ∧
    (data.length < 32 →
      try_from data = .error (.Corrupt ("Pack file of size " ++
        toString data.length ++ " is too small for even an empty pack"))) ∧
    (32 ≤ data.length → data.take 4 ≠ PACK_MAGIC →
      try_from data = .error (.Corrupt "Pack file type not recognized")) ∧
    (32 ≤ data.length → data.take 4 = PACK_MAGIC → readU32BE data 4 ≠ 2 →
      readU32BE data 4 ≠ 3 →
      try_from data = .error (.UnsupportedVersion (readU32BE data 4))) ∧
    (∀ f, try_from data = .ok f → f.num_objects = readU32BE data 8 ∧
      f.data = data) := by
  have htf : try_from data =
      (if data.length < 32 then
        .error (.Corrupt ("Pack file of size " ++ toString data.length ++
          " is too small for even an empty pack"))
      else if data.take 4 ≠ PACK_MAGIC then
        .error (.Corrupt "Pack file type not recognized")
      else
        match readU32BE data 4 with
        | 2 => .ok { data := data, kind := .V2, num_objects := readU32BE data 8 }
        | 3 => .ok { data := data, kind := .V3, num_objects := readU32BE data 8 }
        | v => .error (.UnsupportedVersion v)) := rfl
  refine ⟨?_, ?_, ?_, ?_, ?_⟩
  · constructor
    · rintro ⟨f, hf⟩
      rw [htf] at hf
      by_cases hlen : data.length < 32
      · rw [if_pos hlen] at hf
        cases hf
      · rw [if_neg hlen] at hf
        by_cases hmag : data.take 4 ≠ PACK_MAGIC
        · rw [if_pos hmag] at hf
          cases hf
        · rw [if_neg hmag] at hf
          refine ⟨by omega, not_not.mp hmag, ?_⟩
          split at hf
          · left; assumption
          · right; assumption
          · cases hf
    · rintro ⟨h1, h2, h3⟩
      rw [htf, if_neg (by omega), if_neg (not_not_intro h2)]
      rcases h3 with h3 | h3 <;> rw [h3] <;> exact ⟨_, rfl⟩
  · intro hlen
    rw [htf, if_pos hlen]
  · intro hlen hmag
    rw [htf, if_neg (by omega), if_pos hmag]
  · intro hlen hmag h2 h3
    rw [htf, if_neg (by omega), if_neg (not_not_intro hmag)]
    split
    · omega
    · omega
    · rfl
  · intro f hf
    rw [htf] at hf
    by_cases hlen : data.length < 32
    · rw [if_pos hlen] at hf
      cases hf
    · rw [if_neg hlen] at hf
      by_cases hmag : data.take 4 ≠ PACK_MAGIC
      · rw [if_pos hmag] at hf
        cases hf
      · rw [if_neg hmag] at hf
        split at hf
        · cases hf
          exact ⟨rfl, rfl⟩
        · cases hf
          exact ⟨rfl, rfl⟩
        · cases hf

/-- C9, witness: a well-formed 32-byte version-2 header with `num_objects`
258 is accepted; an 8-byte file, a bad magic, and version 4 are rejected as
the characterization states. -/
theorem c9_witness :
    (∃ f, try_from (PACK_MAGIC ++ [0, 0, 0, 2] ++ [0, 0, 1, 2] ++
      List.replicate 20 0) = .ok f) ∧
    try_from [80, 65, 67, 75, 0, 0, 0, 2] =
      .error (.Corrupt ("Pack file of size " ++ toString 8 ++
        " is too small for even an empty pack")) ∧
    try_from (List.replicate 32 0) =
      .error (.Corrupt "Pack file type not recognized") ∧
    try_from (PACK_MAGIC ++ [0, 0, 0, 4] ++ [0, 0, 1, 2] ++
      List.replicate 20 0) = .error (.UnsupportedVersion 4) ∧
    (∀ f, try_from (PACK_MAGIC ++ [0, 0, 0, 2] ++ [0, 0, 1, 2] ++
      List.replicate 20 0) = .ok f → f.num_objects = 258) := by
  refine ⟨?_, ?_, ?_, ?_, ?_⟩
  · exact (c9_try_from_characterization _).1.mpr ⟨by decide, by decide, by decide⟩
  · exact (c9_try_from_characterization _).2.1 (by decide)
  · exact (c9_try_from_characterization _).2.2.1 (by decide) (by decide)
  · exact (c9_try_from_characterization _).2.2.2.1 (by decide) (by decide)
      (by decide) (by decide)
  · intro f hf
    exact ((c9_try_from_characterization _).2.2.2.2 f hf).1

/-- C10: `decode_entry` returns normally only for base-kind headers (Commit,
Tree, Blob, Tag); for every `OfsDelta` or `RefDelta` header it aborts (the
`unimplemented!` arms, and possibly the earlier `assert!`s), it aborts
whenever the output buffer is smaller than the entry's decompressed size,
and its error return is reachable only through a zlib inflation failure on a
base entry. -/
theorem c10_decode_entry (inflate : List Nat → Except Nat Unit) (file : OdbFile)
    (entry : OdbEntry) (outLen : Nat) :
    (decode_entry inflate file entry outLen = .ok →
      entry.header.isBase = true) ∧
    (entry.header.isBase = false →
      decode_entry inflate file entry outLen = .panics) ∧
    (outLen < entry.size → decode_entry inflate file entry outLen = .panics) ∧
    (∀ ec, decode_entry inflate file entry outLen = .zlibErr ec →
      entry.header.isBase = true ∧
      inflate (file.data.drop entry.offset) = .error ec) := by
  unfold decode_entry
  by_cases h1 : outLen < entry.size
  · rw [if_pos h1]
    refine ⟨?_, ?_, ?_, ?_⟩
    · intro h
      cases h
    · intro _
      rfl
    · intro _
      rfl
    · intro ec h
      cases h
  · rw [if_neg h1]
    by_cases h2 : file.data.length < entry.offset
    · rw [if_pos h2]
      refine ⟨?_, ?_, ?_, ?_⟩
      · intro h
        cases h
      · intro _
        rfl
      · intro _
        rfl
      · intro ec h
        cases h
    · rw [if_neg h2]
      rcases hh : entry.header with _ | _ | _ | _ | b | b
      ·
        refine ⟨?_, ?_, ?_, ?_⟩
        · intro _
          rfl
        · intro hfalse
          cases hfalse
        · intro h
          exact absurd h h1
        · intro ec h
          cases hinf : inflate (file.data.drop entry.offset) <;> rw [hinf] at h
          · cases h
            exact ⟨rfl, rfl⟩
          · cases h
      ·
        refine ⟨?_, ?_, ?_, ?_⟩
        · intro _
          rfl
        · intro hfalse
          cases hfalse
        · intro h
          exact absurd h h1
        · intro ec h
          cases hinf : inflate (file.data.drop entry.offset) <;> rw [hinf] at h
          · cases h
            exact ⟨rfl, rfl⟩
          · cases h
      ·
        refine ⟨?_, ?_, ?_, ?_⟩
        · intro _
          rfl
        · intro hfalse
          cases hfalse
        · intro h
          exact absurd h h1
        · intro ec h
          cases hinf : inflate (file.data.drop entry.offset) <;> rw [hinf] at h
          · cases h
            exact ⟨rfl, rfl⟩
          · cases h
      ·
        refine ⟨?_, ?_, ?_, ?_⟩
        · intro _
          rfl
        · intro hfalse
          cases hfalse
        · intro h
          exact absurd h h1
        · intro ec h
          cases hinf : inflate (file.data.drop entry.offset) <;> rw [hinf] at h
          · cases h
            exact ⟨rfl, rfl⟩
          · cases h
      ·
        refine ⟨?_, ?_, ?_, ?_⟩
        · intro h
          cases h
        · intro _
          rfl
        · intro _
          rfl
        · intro ec h
          cases h
      ·
        refine ⟨?_, ?_, ?_, ?_⟩
        · intro h
          cases h
        · intro _
          rfl
        · intro _
          rfl
        · intro ec h
          cases h

/-- C10, witness: a blob entry with a succeeding inflater returns normally;
an `OfsDelta` entry aborts; a too-small buffer aborts; a failing inflater on
a blob entry surfaces as the zlib error. -/
theorem c10_witness :
    decode_entry (fun _ => .ok ()) { data := [1, 2], kind := .V2, num_objects := 0 }
      { header := .Blob, size := 2, offset := 0 } 2 = .ok ∧
    decode_entry (fun _ => .ok ()) { data := [1, 2], kind := .V2, num_objects := 0 }
      { header := .OfsDelta 0, size := 2, offset := 0 } 2 = .panics ∧
    decode_entry (fun _ => .ok ()) { data := [1, 2], kind := .V2, num_objects := 0 }
      { header := .Blob, size := 2, offset := 0 } 1 = .panics ∧
    decode_entry (fun _ => .error 3) { data := [1, 2], kind := .V2, num_objects := 0 }
      { header := .Blob, size := 2, offset := 0 } 2 = .zlibErr 3 := by
  have h2 := (c10_decode_entry (fun _ => .ok ())
    { data := [1, 2], kind := .V2, num_objects := 0 }
    { header := .OfsDelta 0, size := 2, offset := 0 } 2).2.1 rfl
  have h3 := (c10_decode_entry (fun _ => .ok ())
    { data := [1, 2], kind := .V2, num_objects := 0 }
    { header := .Blob, size := 2, offset := 0 } 1).2.2.1 (by decide)
  exact ⟨rfl, h2, h3, rfl⟩
